import Mathlib

/-!
Shallow embedding of `src/extract_save_image.py` (Fallout save-image
extractor).  Byte streams are modelled as `List Nat` (each element a byte
value), file cursors as explicit positions, and fallible reads as
`Except DecodeErr`.  Text fields are kept as byte sequences where their
decoded content is irrelevant to the verified properties.
-/

/-- Error taxonomy of the decoders: `eof` models the `Unexpected EOF`
`ValueError`/`EOFError` raised by `read_exact`, `badDivider` the
`Expected divider` error of `read_divider`, `badMagic` the magic-token
mismatch of `parse_header`. -/
inductive DecodeErr where
  | eof
  | badMagic
  | badDivider
  deriving DecidableEq

/-- The divider byte `PIPE = 0x7C`. -/
def PIPE : Nat := 0x7C

/-- `MAGIC = b"FO3SAVEGAME"` as bytes. -/
def MAGIC : List Nat := [0x46, 0x4F, 0x33, 0x53, 0x41, 0x56, 0x45, 0x47, 0x41, 0x4D, 0x45]

/-- `read_exact(f, n)`: read exactly `n` bytes at `pos`, failing with the
EOF error when fewer remain (Python `f.read(n)` returns the available
prefix, and `read_exact` raises unless its length is `n`). -/
def read_exact (data : List Nat) (pos n : Nat) : Except DecodeErr (List Nat × Nat) :=
  let b := (data.drop pos).take n
  if b.length = n then .ok (b, pos + n) else .error .eof

/-- Little-endian 32-bit value of a 4-byte buffer (`struct.unpack("<I", b)`). -/
def leU32 (b : List Nat) : Nat :=
  match b with
  | b0 :: b1 :: b2 :: b3 :: _ => b0 + 256 * b1 + 65536 * b2 + 16777216 * b3
  | _ => 0

/-- Little-endian 16-bit value of a 2-byte buffer (`struct.unpack("<H", b)`). -/
def leU16 (b : List Nat) : Nat :=
  match b with
  | b0 :: b1 :: _ => b0 + 256 * b1
  | _ => 0

/-- `read_u32_le` / `r_u32le`. -/
def read_u32_le (data : List Nat) (pos : Nat) : Except DecodeErr (Nat × Nat) :=
  (read_exact data pos 4).map (fun bp => (leU32 bp.1, bp.2))

/-- `read_u16_le` / `r_u16le`. -/
def read_u16_le (data : List Nat) (pos : Nat) : Except DecodeErr (Nat × Nat) :=
  (read_exact data pos 2).map (fun bp => (leU16 bp.1, bp.2))

/-- `r_i32le`: signed little-endian 32-bit read (two's complement). -/
def read_i32_le (data : List Nat) (pos : Nat) : Except DecodeErr (Int × Nat) :=
  (read_u32_le data pos).map
    (fun vp => (if vp.1 < 2147483648 then (vp.1 : Int) else (vp.1 : Int) - 4294967296, vp.2))

/-- `read_divider(f)`: consume one byte, failing unless it is `PIPE`. -/
def read_divider (data : List Nat) (pos : Nat) : Except DecodeErr Nat :=
  match read_exact data pos 1 with
  | .ok bp => if bp.1.getD 0 0 = PIPE then .ok bp.2 else .error .badDivider
  | .error e => .error e

/-- `read_bzstring(f, size)`: size `0` yields the empty text with no read
attempt; otherwise read exactly `size` bytes (the permissive latin-1
decode cannot fail, so the text is kept as its bytes). -/
def read_bzstring (data : List Nat) (pos size : Nat) : Except DecodeErr (List Nat × Nat) :=
  if size = 0 then .ok ([], pos) else read_exact data pos size

/-- The record returned by `parse_header` (the Python dict). -/
structure Header where
  width : Nat
  height : Nat
  save_index : Nat
  pc_name : List Nat
  pc_karma : List Nat
  pc_level : Nat
  pc_location : List Nat
  playtime : List Nat
  unknown1 : Nat
  screenshot_offset : Nat
  header_end_pos : Nat
  header_start_pos : Nat
  deriving DecidableEq

/-- The tail of `parse_header` after the width has been determined
(source lines 71-119): the divider-prefixed fields from `height` onward,
ending in the assembled header record with
`screenshot_offset = 4 + save_header_size`. -/
def parse_header_rest (data : List Nat) (start_pos save_header_size unknown1 width pos : Nat) :
    Except DecodeErr Header := do
  let pos ← read_divider data pos
  let (height, pos) ← read_u32_le data pos
  let pos ← read_divider data pos
  let (save_index, pos) ← read_u32_le data pos
  let pos ← read_divider data pos
  let (pc_name_size, pos) ← read_u16_le data pos
  let pos ← read_divider data pos
  let (pc_name, pos) ← read_bzstring data pos pc_name_size
  let pos ← read_divider data pos
  let (pc_karma_size, pos) ← read_u16_le data pos
  let pos ← read_divider data pos
  let (pc_karma, pos) ← read_bzstring data pos pc_karma_size
  let pos ← read_divider data pos
  let (pc_level, pos) ← read_u32_le data pos
  let pos ← read_divider data pos
  let (pc_location_size, pos) ← read_u16_le data pos
  let pos ← read_divider data pos
  let (pc_location, pos) ← read_bzstring data pos pc_location_size
  let pos ← read_divider data pos
  let (playtime_size, pos) ← read_u16_le data pos
  let pos ← read_divider data pos
  let (playtime, pos) ← read_bzstring data pos playtime_size
  let screenshot_offset := 4 + save_header_size
  pure { width := width, height := height, save_index := save_index,
         pc_name := pc_name, pc_karma := pc_karma, pc_level := pc_level,
         pc_location := pc_location, playtime := playtime,
         unknown1 := unknown1, screenshot_offset := screenshot_offset,
         header_end_pos := pos, header_start_pos := start_pos }

/-- `parse_header(f)`: the flat-save header decoder, reading each field in
source order.  The legacy-layout branch (`val > 16384`) seeks 60 bytes
forward, reads another divider and re-reads the width; both branches then
continue with `parse_header_rest`. -/
def parse_header (data : List Nat) (start_pos : Nat) : Except DecodeErr Header := do
  let (file_id, pos) ← read_exact data start_pos 11
  if file_id ≠ MAGIC then throw .badMagic
  else
    let (save_header_size, pos) ← read_u32_le data pos
    let (unknown1, pos) ← read_u32_le data pos
    let pos ← read_divider data pos
    let (val, pos) ← read_u32_le data pos
    if val > 16384 then
      let pos := pos + 60
      let pos ← read_divider data pos
      let (width, pos) ← read_u32_le data pos
      parse_header_rest data start_pos save_header_size unknown1 width pos
    else
      parse_header_rest data start_pos save_header_size unknown1 val pos

/-! ## Pixel reorder/shift transform -/

/-- `reorder_channels(buf)`: per 3-byte pixel, `out[0]=buf[2]`,
`out[1]=buf[0]`, `out[2]=buf[1]` (the stored order is `(B, R, G)`). -/
def reorder_channels : List Nat → List Nat
  | x0 :: x1 :: x2 :: rest => x2 :: x0 :: x1 :: reorder_channels rest
  | l => l

/-- Stride-3 slice `l[0::3]`: every third element starting at the head
(models the Python extended slice used on a channel row). -/
def stride3 : List Nat → List Nat
  | [] => []
  | [a] => [a]
  | [a, _] => [a]
  | a :: _ :: _ :: rest => a :: stride3 rest

/-- Stride-3 slice assignment: write `vs` at positions
`start, start+3, start+6, …` (models `out[start:stop:3] = vs`, whose
lengths always agree at the call sites). -/
def writeStride3 : List Nat → Nat → List Nat → List Nat
  | out, _, [] => out
  | out, start, v :: vs => writeStride3 (out.set start v) (start + 3) vs

/-- The per-row loop of `shift_channel`: for each scanline `y`, extract the
channel's stride-3 sub-sequence, apply `rot` to it, and write it back. -/
def rotRows (rot : List Nat → List Nat) (w ch : Nat) : Nat → Nat → List Nat → List Nat
  | _, 0, out => out
  | y, n + 1, out =>
      let row0 := y * (w * 3)
      let ch_row := stride3 ((out.drop (row0 + ch)).take (w * 3 - ch))
      rotRows rot w ch (y + 1) n (writeStride3 out (row0 + ch) (rot ch_row))

/-- `shift_channel(buf, w, h, channel, shift_px)`: reduce `shift_px` modulo
`w` (Python `%`, i.e. the nonnegative remainder for positive `w`); a zero
shift is a no-op; otherwise rotate each scanline's channel sub-sequence by
`rotated = ch_row[-shift:] + ch_row[:-shift]`. -/
def shift_channel (buf : List Nat) (w h : Nat) (channel : String) (shift_px : Int) : List Nat :=
  let ch_idx := if channel = "r" then 0 else if channel = "g" then 1 else 2
  let shift := (shift_px % (w : Int)).toNat
  if shift = 0 then buf
  else rotRows (fun l => l.drop (l.length - shift) ++ l.take (l.length - shift)) w ch_idx 0 h buf

/-- The pixel post-processing applied by `extract_image` (lines 316-320):
channel reorder, then the three per-channel row shifts. -/
def pixel_pipeline (w h : Nat) (buf : List Nat) : List Nat :=
  let d0 := reorder_channels buf
  let d1 := shift_channel d0 w h "r" (-3)
  let d2 := shift_channel d1 w h "g" (-4)
  shift_channel d2 w h "b" (-4)

/-- `extract_image(save_path, …)` restricted to its decode core: parse the
header, read `width*height*3` bytes at `screenshot_offset`, run the pixel
transform, and return dimensions plus the final buffer (the PNG encoder is
an external collaborator). -/
def extract_image (data : List Nat) : Except DecodeErr (Nat × Nat × List Nat) := do
  let meta ← parse_header data 0
  let w := meta.width
  let h := meta.height
  let (px, _) ← read_exact data meta.screenshot_offset (w * h * 3)
  pure (w, h, pixel_pipeline w h px)

/-! ## Clustered container (`PirsType2`) -/

/-- `dos_datetime_from_u32(v)`: DOS-packed date-time decoded into
`(year, month, day, hour, minute, second)`. -/
def dos_datetime_from_u32 (v : Nat) : Nat × Nat × Nat × Nat × Nat × Nat :=
  let d := (v >>> 16) &&& 0xFFFF
  let t := v &&& 0xFFFF
  (((d >>> 9) &&& 0x7F) + 1980, (d >>> 5) &&& 0x0F, d &&& 0x1F,
   (t >>> 11) &&& 0x1F, (t >>> 5) &&& 0x3F, (t &&& 0x1F) * 2)

/-- One directory-table record (`PirsEntry`); the filename is kept as its
(NUL-trimmed, whitespace-stripped) bytes. -/
structure PirsEntry where
  Filename : List Nat
  Unknow : Int
  BlockLen : Int
  Cluster : Nat
  Parent : Nat
  Size : Nat
  DateTime1 : Nat × Nat × Nat × Nat × Nat × Nat
  DateTime2 : Nat × Nat × Nat × Nat × Nat × Nat
  is_dir : Bool
  deriving DecidableEq

/-- Truncate a byte buffer at its first NUL (`raw.find(b"\x00")`). -/
def truncAtNul : List Nat → List Nat
  | [] => []
  | b :: rest => if b = 0 then [] else b :: truncAtNul rest

/-- ASCII whitespace test, modelling Python `str.strip()` on the decoded name. -/
def isSpaceByte (b : Nat) : Bool :=
  b = 32 || b = 9 || b = 10 || b = 13 || b = 11 || b = 12

/-- Strip leading and trailing whitespace bytes. -/
def stripBytes (l : List Nat) : List Nat :=
  ((l.dropWhile isSpaceByte).reverse.dropWhile isSpaceByte).reverse

/-- `read_fixed_str(f, n)`: read `n` bytes, truncate at the first NUL and
strip surrounding whitespace (text kept as bytes). -/
def read_fixed_str (data : List Nat) (pos n : Nat) : Except DecodeErr (List Nat × Nat) :=
  (read_exact data pos n).map (fun bp => (stripBytes (truncAtNul bp.1), bp.2))

/-- `con_start = 49152`: directory-table start offset. -/
def con_start : Nat := 49152

/-- `con_offset = 8192`: index-block stride. -/
def con_offset : Nat := 8192

/-- `PirsType2._get_offset(cluster)`: physical offset of a cluster, with
the two index-block corrections exactly as coded. -/
def get_offset (cluster : Nat) : Nat :=
  let num := con_start + cluster * 4096
  let n2 := cluster / 170
  let n3 := n2 / 170
  let num := if 0 < n2 then num + (n2 + 1) * con_offset else num
  let num := if 0 < n3 then num + (n3 + 1) * con_offset else num
  num

/-- `PirsType2._read_entry`: decode one 64-byte record at `pos`; an empty
name yields `none` (the table terminator — the Python code returns an
entry with only `Filename` set and the caller stops the scan). -/
def read_entry (data : List Nat) (pos : Nat) : Except DecodeErr (Option PirsEntry × Nat) := do
  let (fname, pos) ← read_fixed_str data pos 38
  if fname = [] then
    pure (none, pos)
  else
    let (unknow, pos) ← read_i32_le data pos
    let (blockLen, pos) ← read_i32_le data pos
    let (raw_cluster, pos) ← read_u32_le data pos
    let cluster := raw_cluster >>> 8
    let (parent, pos) ← read_u16_le data pos
    let (size, pos) ← read_u32_le data pos
    let (dt1, pos) ← read_u32_le data pos
    let (dt2, pos) ← read_u32_le data pos
    pure (some { Filename := fname, Unknow := unknow, BlockLen := blockLen,
                 Cluster := cluster, Parent := parent, Size := size,
                 DateTime1 := dos_datetime_from_u32 dt1,
                 DateTime2 := dos_datetime_from_u32 dt2,
                 is_dir := size == 0 && cluster == 0 }, pos)

/-- The full-block loop of `PirsType2._extract_entry`, iterating block `i`
of at most `fuel` remaining blocks with the previous offset `last_off`;
returns the bytes written so far and the remainder left after the loop.
`pkg` is the package file, whose length is `self._pkg_size`. -/
def extractBlocksGo (pkg : List Nat) (start : Nat) :
    Nat → Nat → Int → Nat → List Nat → List Nat × Nat
  | _, 0, _, remainder, acc => (acc, remainder)
  | i, fuel + 1, last_off, remainder, acc =>
    let off := get_offset (start + i)
    if (off : Int) ≤ last_off then (acc, remainder)
    else if pkg.length ≤ off then (acc, 0)
    else
      let to_read := min 4096 (pkg.length - off)
      if to_read = 0 then (acc, 0)
      else
        let acc2 := acc ++ (pkg.drop off).take to_read
        if to_read < 4096 then (acc2, 0)
        else extractBlocksGo pkg start (i + 1) fuel (off : Int) remainder acc2

/-- `PirsType2._extract_entry(e, dst)`: the bytes written for one entry
(sizes `≤ 0` — i.e. `0` for a `u32` — produce nothing; full blocks are
streamed by `extractBlocksGo`, then a positive leftover remainder is read
from the next cluster, clipped to end of file). -/
def extract_entry (pkg : List Nat) (e : PirsEntry) : List Nat :=
  if e.Size = 0 then []
  else
    let size := e.Size
    let start_cluster := e.Cluster
    let blocks_by_size := size >>> 12
    let blocks_by_blocklen := (max 0 e.BlockLen).toNat
    let full_blocks :=
      if blocks_by_blocklen ≠ 0 then min blocks_by_size blocks_by_blocklen else blocks_by_size
    let remainder := size - full_blocks * 4096
    let (written, rem) := extractBlocksGo pkg start_cluster 0 full_blocks (-1) remainder []
    if 0 < rem then
      let off := get_offset (start_cluster + full_blocks)
      if off < pkg.length then
        let to_read := min rem (pkg.length - off)
        if 0 < to_read then written ++ (pkg.drop off).take to_read else written
      else written
    else written

/-- `PirsType2.extract_all`: every non-directory entry is written out under
its filename; directories are skipped. -/
def extract_all (entries : List PirsEntry) (pkg : List Nat) : List (List Nat × List Nat) :=
  (entries.filter (fun e => !e.is_dir)).map (fun e => (e.Filename, extract_entry pkg e))

/-! ## Spec-side definitions and helper lemmas for the offset claims -/

/-- The cluster-offset formula as the spec's words state it (claim C1):
`base + c*4096`, plus one 8192-byte index block for each complete group of
170 clusters already passed, plus a second one for each complete group of
170 groups already passed. -/
def spec_offset (c : Nat) : Nat :=
  con_start + c * 4096 + (c / 170) * con_offset + (c / 170 / 170) * con_offset

/-- `_get_offset` is strictly monotone in the cluster index. -/
theorem get_offset_mono {c1 c2 : Nat} (h : c1 < c2) : get_offset c1 < get_offset c2 := by
  unfold get_offset con_start con_offset
  simp only
  split_ifs <;> omega

/-- The full-block loop without the `off <= last_off` early-exit guard
(claim-side definition for C9: the guard is dead code). -/
def extractBlocksGoU (pkg : List Nat) (start : Nat) :
    Nat → Nat → Nat → List Nat → List Nat × Nat
  | _, 0, remainder, acc => (acc, remainder)
  | i, fuel + 1, remainder, acc =>
    let off := get_offset (start + i)
    if pkg.length ≤ off then (acc, 0)
    else
      let to_read := min 4096 (pkg.length - off)
      if to_read = 0 then (acc, 0)
      else
        let acc2 := acc ++ (pkg.drop off).take to_read
        if to_read < 4096 then (acc2, 0)
        else extractBlocksGoU pkg start (i + 1) fuel remainder acc2

/-- As long as the previous offset lies strictly below the next one, the
guarded loop agrees with the unguarded loop. -/
theorem extractBlocksGo_eq_unguarded (pkg : List Nat) (start : Nat) :
    ∀ fuel i (last_off : Int) remainder acc,
      last_off < (get_offset (start + i) : Int) →
      extractBlocksGo pkg start i fuel last_off remainder acc =
        extractBlocksGoU pkg start i fuel remainder acc := by
  intro fuel
  induction fuel with
  | zero => intro i last_off remainder acc _; rfl
  | succ fuel ih =>
    intro i last_off remainder acc h
    rw [extractBlocksGo, extractBlocksGoU]
    simp only
    rw [if_neg (by omega)]
    split
    · rfl
    · split
      · rfl
      · split
        · rfl
        · have hmono : (get_offset (start + i) : Int) < (get_offset (start + (i + 1)) : Int) := by
            exact_mod_cast get_offset_mono (by omega)
          exact ih (i + 1) _ remainder _ hmono

/-! ## C1 -/

/-- C1 counterexample: at cluster index 170 the code's offset includes a
16384-byte correction (two 8192-byte index blocks), not the single
8192-byte correction the claim states. -/
theorem c1_counterexample :
    get_offset 170 = con_start + 170 * 4096 + 2 * 8192 ∧
    spec_offset 170 = con_start + 170 * 4096 + 1 * 8192 ∧
    get_offset 170 ≠ spec_offset 170 := by decide

/-- C1 (amended): the physical offset of cluster `c` is `base + c*4096`,
plus `(c/170 + 1)` index blocks of 8192 bytes when at least one complete
group of 170 clusters has been passed, plus `(c/170/170 + 1)` further
index blocks when at least one complete group of 170 groups has been
passed; in particular cluster 170 gets a `2*8192` correction and cluster
`170*170` gets `(171 + 2)*8192` in total. -/
theorem c1_offset_formula :
    (∀ c : Nat, get_offset c =
      con_start + c * 4096 +
        (if 0 < c / 170 then (c / 170 + 1) * con_offset else 0) +
        (if 0 < c / 170 / 170 then (c / 170 / 170 + 1) * con_offset else 0)) ∧
    get_offset 170 = con_start + 170 * 4096 + 2 * 8192 ∧
    get_offset (170 * 170) = con_start + 170 * 170 * 4096 + (171 + 2) * 8192 := by
  refine ⟨fun c => ?_, by decide, by decide⟩
  unfold get_offset con_start con_offset
  simp only
  split_ifs <;> omega

/-! ## C9 -/

/-- C9: the cluster-to-offset map is strictly monotone, and consequently
the `off <= last_off` early-exit branch of the full-block loop is never
taken: started from the initial `last_off = -1`, the guarded loop computes
exactly what the loop without that guard computes. -/
theorem c9_offset_strict_mono :
    (∀ c1 c2 : Nat, c1 < c2 → get_offset c1 < get_offset c2) ∧
    (∀ (pkg : List Nat) (start fuel remainder : Nat) (acc : List Nat),
      extractBlocksGo pkg start 0 fuel (-1) remainder acc =
        extractBlocksGoU pkg start 0 fuel remainder acc) :=
  ⟨fun _ _ h => get_offset_mono h,
   fun pkg start fuel remainder acc =>
     extractBlocksGo_eq_unguarded pkg start fuel 0 (-1) remainder acc (by omega)⟩

/-- Witness for C9 at concrete inputs. -/
theorem c9_offset_strict_mono_witness :
    (0 < 1 ∧ get_offset 0 < get_offset 1) ∧
    extractBlocksGo [] 3 0 2 (-1) 9 [] = extractBlocksGoU [] 3 0 2 9 [] :=
  ⟨⟨by decide, c9_offset_strict_mono.1 0 1 (by decide)⟩,
   c9_offset_strict_mono.2 [] 3 2 9 []⟩

/-! ## C6 -/

/-- C6 counterexample: when the computed offset is not strictly greater
than the previous block's offset, the loop stops early but the remainder
is left unchanged (here `5`), not forced to `0` as the claim states. -/
theorem c6_counterexample :
    extractBlocksGo [] 0 0 1 1000000000 5 [] = ([], 5) ∧ (5 : Nat) ≠ 0 :=
  ⟨rfl, by decide⟩

/-- C6 (amended): each full-block iteration stops early with the remainder
forced to `0` in the end-of-file case and in the short-read case; in the
offset-not-strictly-increasing case it stops early with the remainder
left unchanged (a case that is in fact unreachable, the offsets being
strictly monotone). -/
theorem c6_block_loop_guards (pkg : List Nat) (start i fuel : Nat) (last_off : Int)
    (remainder : Nat) (acc : List Nat) :
    ((get_offset (start + i) : Int) ≤ last_off →
      extractBlocksGo pkg start i (fuel + 1) last_off remainder acc = (acc, remainder)) ∧
    (last_off < (get_offset (start + i) : Int) → pkg.length ≤ get_offset (start + i) →
      extractBlocksGo pkg start i (fuel + 1) last_off remainder acc = (acc, 0)) ∧
    (last_off < (get_offset (start + i) : Int) → get_offset (start + i) < pkg.length →
      pkg.length - get_offset (start + i) < 4096 →
      extractBlocksGo pkg start i (fuel + 1) last_off remainder acc =
        (acc ++ (pkg.drop (get_offset (start + i))).take (pkg.length - get_offset (start + i)), 0)) := by
  refine ⟨fun h1 => ?_, fun h1 h2 => ?_, fun h1 h2 h3 => ?_⟩
  · rw [extractBlocksGo]
    simp only
    rw [if_pos h1]
  · rw [extractBlocksGo]
    simp only
    rw [if_neg (by omega), if_pos h2]
  · rw [extractBlocksGo]
    simp only
    rw [if_neg (by omega), if_neg (by omega), if_neg (by omega),
        if_pos (by omega), min_eq_right (by omega)]

/-- Witness for C6 exercising each of the three guards at concrete states. -/
theorem c6_block_loop_guards_witness :
    ((get_offset 0 : Int) ≤ 49152 ∧ extractBlocksGo [0] 0 0 1 49152 7 [] = ([], 7)) ∧
    (((-1 : Int) < (get_offset 0 : Int) ∧ ([] : List Nat).length ≤ get_offset 0) ∧
      extractBlocksGo [] 0 0 1 (-1) 5 [] = ([], 0)) ∧
    (((-1 : Int) < (get_offset 0 : Int) ∧
        get_offset 0 < (List.replicate 49153 0).length ∧
        (List.replicate 49153 0).length - get_offset 0 < 4096) ∧
      extractBlocksGo (List.replicate 49153 0) 0 0 (0 + 1) (-1) 6 [] =
        ([] ++ ((List.replicate 49153 0).drop (get_offset (0 + 0))).take
          ((List.replicate 49153 0).length - get_offset (0 + 0)), 0)) :=
  ⟨⟨by norm_num [get_offset, con_start, con_offset],
     (c6_block_loop_guards [0] 0 0 0 49152 7 []).1
       (by norm_num [get_offset, con_start, con_offset])⟩,
   ⟨⟨by norm_num [get_offset, con_start, con_offset],
     by norm_num [get_offset, con_start, con_offset]⟩,
     (c6_block_loop_guards [] 0 0 0 (-1) 5 []).2.1
       (by norm_num [get_offset, con_start, con_offset])
       (by norm_num [get_offset, con_start, con_offset])⟩,
   ⟨⟨by norm_num [get_offset, con_start, con_offset],
     by rw [List.length_replicate]; norm_num [get_offset, con_start, con_offset],
     by rw [List.length_replicate]; norm_num [get_offset, con_start, con_offset]⟩,
     (c6_block_loop_guards (List.replicate 49153 0) 0 0 0 (-1) 6 []).2.2
       (by norm_num [get_offset, con_start, con_offset])
       (by rw [List.length_replicate]; norm_num [get_offset, con_start, con_offset])
       (by rw [List.length_replicate]; norm_num [get_offset, con_start, con_offset])⟩⟩

/-! ## Length preservation of the pixel transform -/

theorem reorder_channels_length : ∀ l : List Nat, (reorder_channels l).length = l.length
  | [] => rfl
  | [_] => rfl
  | [_, _] => rfl
  | x0 :: x1 :: x2 :: rest => by
      simp only [reorder_channels, List.length_cons]
      rw [reorder_channels_length rest]

theorem writeStride3_length : ∀ (vs out : List Nat) (start : Nat),
    (writeStride3 out start vs).length = out.length
  | [], _, _ => rfl
  | v :: vs, out, start => by
      rw [writeStride3, writeStride3_length vs, List.length_set]

theorem rotRows_length (rot : List Nat → List Nat) (w ch : Nat) :
    ∀ (n y : Nat) (out : List Nat), (rotRows rot w ch y n out).length = out.length := by
  intro n
  induction n with
  | zero => intro y out; rfl
  | succ n ih =>
    intro y out
    rw [rotRows]
    rw [ih, writeStride3_length]

theorem shift_channel_length (buf : List Nat) (w h : Nat) (channel : String) (shift_px : Int) :
    (shift_channel buf w h channel shift_px).length = buf.length := by
  unfold shift_channel
  simp only
  split
  · rfl
  · rw [rotRows_length]

theorem pixel_pipeline_length (w h : Nat) (buf : List Nat) :
    (pixel_pipeline w h buf).length = buf.length := by
  unfold pixel_pipeline
  simp only
  rw [shift_channel_length, shift_channel_length, shift_channel_length,
      reorder_channels_length]

/-! ## Helpers for walking the parser's bind chains -/

theorem except_bind_eq_ok {ε α β : Type} {x : Except ε α} {f : α → Except ε β} {b : β}
    (h : x >>= f = .ok b) : ∃ a, x = .ok a ∧ f a = .ok b := by
  cases x with
  | ok a => exact ⟨a, rfl, h⟩
  | error e => exact absurd h (by simp [Bind.bind, Except.bind])

theorem read_exact_eq_ok {data : List Nat} {pos n : Nat} {bp : List Nat × Nat}
    (h : read_exact data pos n = .ok bp) :
    bp = ((data.drop pos).take n, pos + n) ∧ bp.1.length = n := by
  unfold read_exact at h
  simp only at h
  split at h
  · cases h
    constructor
    · rfl
    · assumption
  · cases h

theorem read_u32_le_eq_ok {data : List Nat} {pos : Nat} {vp : Nat × Nat}
    (h : read_u32_le data pos = .ok vp) :
    vp = (leU32 ((data.drop pos).take 4), pos + 4) := by
  unfold read_u32_le at h
  cases hx : read_exact data pos 4 with
  | ok bp =>
    rw [hx] at h
    cases h
    rw [(read_exact_eq_ok hx).1]
  | error e => rw [hx] at h; cases h

theorem read_u16_le_eq_ok {data : List Nat} {pos : Nat} {vp : Nat × Nat}
    (h : read_u16_le data pos = .ok vp) :
    vp = (leU16 ((data.drop pos).take 2), pos + 2) := by
  unfold read_u16_le at h
  cases hx : read_exact data pos 2 with
  | ok bp =>
    rw [hx] at h
    cases h
    rw [(read_exact_eq_ok hx).1]
  | error e => rw [hx] at h; cases h

/-- Walking the tail of the header decoder: a successful
`parse_header_rest` yields a header whose screenshot offset is
`4 + save_header_size` and whose width is the width it was given. -/
theorem parse_header_rest_fields {data : List Nat} {sp shs unk width pos : Nat} {hdr : Header}
    (h : parse_header_rest data sp shs unk width pos = .ok hdr) :
    hdr.screenshot_offset = 4 + shs ∧ hdr.width = width := by
  unfold parse_header_rest at h
  obtain ⟨p1, _, h⟩ := except_bind_eq_ok h
  obtain ⟨a2, _, h⟩ := except_bind_eq_ok h
  obtain ⟨height, pos2⟩ := a2
  obtain ⟨p3, _, h⟩ := except_bind_eq_ok h
  obtain ⟨a4, _, h⟩ := except_bind_eq_ok h
  obtain ⟨save_index, pos4⟩ := a4
  obtain ⟨p5, _, h⟩ := except_bind_eq_ok h
  obtain ⟨a6, _, h⟩ := except_bind_eq_ok h
  obtain ⟨nsz, pos6⟩ := a6
  obtain ⟨p7, _, h⟩ := except_bind_eq_ok h
  obtain ⟨a8, _, h⟩ := except_bind_eq_ok h
  obtain ⟨nm, pos8⟩ := a8
  obtain ⟨p9, _, h⟩ := except_bind_eq_ok h
  obtain ⟨a10, _, h⟩ := except_bind_eq_ok h
  obtain ⟨ksz, pos10⟩ := a10
  obtain ⟨p11, _, h⟩ := except_bind_eq_ok h
  obtain ⟨a12, _, h⟩ := except_bind_eq_ok h
  obtain ⟨km, pos12⟩ := a12
  obtain ⟨p13, _, h⟩ := except_bind_eq_ok h
  obtain ⟨a14, _, h⟩ := except_bind_eq_ok h
  obtain ⟨lvl, pos14⟩ := a14
  obtain ⟨p15, _, h⟩ := except_bind_eq_ok h
  obtain ⟨a16, _, h⟩ := except_bind_eq_ok h
  obtain ⟨lsz, pos16⟩ := a16
  obtain ⟨p17, _, h⟩ := except_bind_eq_ok h
  obtain ⟨a18, _, h⟩ := except_bind_eq_ok h
  obtain ⟨loc, pos18⟩ := a18
  obtain ⟨p19, _, h⟩ := except_bind_eq_ok h
  obtain ⟨a20, _, h⟩ := except_bind_eq_ok h
  obtain ⟨psz, pos20⟩ := a20
  obtain ⟨p21, _, h⟩ := except_bind_eq_ok h
  obtain ⟨a22, _, h⟩ := except_bind_eq_ok h
  obtain ⟨pt, pos22⟩ := a22
  cases h
  exact ⟨rfl, rfl⟩

/-- Walking the header decoder: a successful parse's screenshot offset is
`4` plus the 32-bit field at byte offset 11 of the stream, no matter which
width branch was taken and where the cursor ended up. -/
theorem parse_header_offset_eq {data : List Nat} {sp : Nat} {hdr : Header}
    (h : parse_header data sp = .ok hdr) {vp : Nat × Nat}
    (hv : read_u32_le data (sp + 11) = .ok vp) :
    hdr.screenshot_offset = 4 + vp.1 := by
  unfold parse_header at h
  obtain ⟨a1, h1, h⟩ := except_bind_eq_ok h
  obtain ⟨file_id, pos1⟩ := a1
  have hp1 : pos1 = sp + 11 := congrArg Prod.snd (read_exact_eq_ok h1).1
  split at h
  rename_i fid2 pos2x heq
  injection heq with e1 e2
  subst e1
  subst e2
  split at h
  · cases h
  · obtain ⟨a2, h2, h⟩ := except_bind_eq_ok h
    obtain ⟨shs, pos2⟩ := a2
    rw [hp1, hv] at h2
    have hshs : vp.1 = shs := congrArg Prod.fst (Except.ok.inj h2)
    obtain ⟨a3, h3, h⟩ := except_bind_eq_ok h
    obtain ⟨unk, pos3⟩ := a3
    obtain ⟨p4, h4, h⟩ := except_bind_eq_ok h
    obtain ⟨a5, h5, h⟩ := except_bind_eq_ok h
    obtain ⟨val, pos5⟩ := a5
    split at h
    rename_i val2 pos5x heq2
    injection heq2 with e3 e4
    subst e3
    subst e4
    split at h
    · obtain ⟨p6, h6, h⟩ := except_bind_eq_ok h
      obtain ⟨a7, h7, h⟩ := except_bind_eq_ok h
      obtain ⟨w7, pos7⟩ := a7
      rw [(parse_header_rest_fields h).1, hshs]
    · rw [(parse_header_rest_fields h).1, hshs]

/-- A successful `extract_image` run decomposes into a successful header
parse and a full-length pixel read followed by the pixel pipeline. -/
theorem extract_image_eq_ok {data : List Nat} {w h : Nat} {px : List Nat}
    (he : extract_image data = .ok (w, h, px)) :
    ∃ hdr, parse_header data 0 = .ok hdr ∧ w = hdr.width ∧ h = hdr.height ∧
      px = pixel_pipeline hdr.width hdr.height
        ((data.drop hdr.screenshot_offset).take (hdr.width * hdr.height * 3)) ∧
      px.length = w * h * 3 := by
  unfold extract_image at he
  obtain ⟨hdr, hh, he⟩ := except_bind_eq_ok he
  obtain ⟨a, ha, he⟩ := except_bind_eq_ok he
  obtain ⟨px0, pend⟩ := a
  obtain ⟨hsh, hlen⟩ := read_exact_eq_ok ha
  have hpx0 : px0 = (data.drop hdr.screenshot_offset).take (hdr.width * hdr.height * 3) :=
    congrArg Prod.fst hsh
  cases he
  refine ⟨hdr, hh, rfl, rfl, by rw [hpx0], ?_⟩
  rw [pixel_pipeline_length]
  exact hlen

/-- Little-endian byte encoding of a 32-bit value (for building concrete
and synthetic save streams in the statements below). -/
def encodeU32 (v : Nat) : List Nat :=
  [v % 256, v / 256 % 256, v / 65536 % 256, v / 16777216 % 256]

/-- Little-endian byte encoding of a 16-bit value. -/
def encodeU16 (v : Nat) : List Nat := [v % 256, v / 256 % 256]

/-- A minimal valid 1×1 flat save: header size 51, so the screenshot
offset is 55, exactly the header's end, followed by one (B, R, G) pixel. -/
def flatSaveExample : List Nat :=
  MAGIC ++ encodeU32 51 ++ encodeU32 0 ++ [PIPE] ++ encodeU32 1 ++ [PIPE] ++ encodeU32 1 ++
    [PIPE] ++ encodeU32 0 ++ [PIPE] ++ encodeU16 0 ++ [PIPE] ++ [PIPE] ++ encodeU16 0 ++
    [PIPE] ++ [PIPE] ++ encodeU32 0 ++ [PIPE] ++ encodeU16 0 ++ [PIPE] ++ [PIPE] ++
    encodeU16 0 ++ [PIPE] ++ [10, 20, 30]

/-! ## C2 -/

/-- C2: for every flat-save input the header decoder accepts, the returned
screenshot offset equals exactly `4` plus the 32-bit header-size field
read at byte offset 11 of the stream — independently of the cursor
position after parsing — and the pixel data `extract_image` subsequently
reads from that offset has length exactly `width*height*3`. -/
theorem c2_screenshot_offset_and_pixels (data : List Nat) (hdr : Header)
    (hp : parse_header data 0 = .ok hdr) :
    (∀ vp : Nat × Nat, read_u32_le data 11 = .ok vp → hdr.screenshot_offset = 4 + vp.1) ∧
    (∀ w h px, extract_image data = .ok (w, h, px) → px.length = w * h * 3) := by
  constructor
  · intro vp hv
    exact parse_header_offset_eq hp (by simpa using hv)
  · intro w h px he
    exact (extract_image_eq_ok he).choose_spec.2.2.2.2

/-- Witness for C2 at the concrete 1×1 flat save. -/
theorem c2_screenshot_offset_and_pixels_witness :
    parse_header flatSaveExample 0 = .ok
      { width := 1, height := 1, save_index := 0, pc_name := [], pc_karma := [],
        pc_level := 0, pc_location := [], playtime := [], unknown1 := 0,
        screenshot_offset := 55, header_end_pos := 55, header_start_pos := 0 } ∧
    ((∀ vp : Nat × Nat, read_u32_le flatSaveExample 11 = .ok vp →
        Header.screenshot_offset
          { width := 1, height := 1, save_index := 0, pc_name := [], pc_karma := [],
            pc_level := 0, pc_location := [], playtime := [], unknown1 := 0,
            screenshot_offset := 55, header_end_pos := 55, header_start_pos := 0 } = 4 + vp.1) ∧
     (∀ w h px, extract_image flatSaveExample = .ok (w, h, px) → px.length = w * h * 3)) :=
  ⟨rfl, c2_screenshot_offset_and_pixels flatSaveExample _ rfl⟩

/-! ## C8 -/

/-- A flat save declaring a 2×0 image (pixel-data length 0) with header
size 1000, so its screenshot offset (1004) lies far past the 55 bytes of
the file. -/
def flatSaveTrunc0 : List Nat :=
  MAGIC ++ encodeU32 1000 ++ encodeU32 0 ++ [PIPE] ++ encodeU32 2 ++ [PIPE] ++ encodeU32 0 ++
    [PIPE] ++ encodeU32 0 ++ [PIPE] ++ encodeU16 0 ++ [PIPE] ++ [PIPE] ++ encodeU16 0 ++
    [PIPE] ++ [PIPE] ++ encodeU32 0 ++ [PIPE] ++ encodeU16 0 ++ [PIPE] ++ [PIPE] ++
    encodeU16 0 ++ [PIPE]

/-- The 1×1 flat save of `flatSaveExample` cut off one byte before the
declared 3 bytes of pixel data. -/
def flatSaveTrunc1 : List Nat :=
  MAGIC ++ encodeU32 51 ++ encodeU32 0 ++ [PIPE] ++ encodeU32 1 ++ [PIPE] ++ encodeU32 1 ++
    [PIPE] ++ encodeU32 0 ++ [PIPE] ++ encodeU16 0 ++ [PIPE] ++ [PIPE] ++ encodeU16 0 ++
    [PIPE] ++ [PIPE] ++ encodeU32 0 ++ [PIPE] ++ encodeU16 0 ++ [PIPE] ++ [PIPE] ++
    encodeU16 0 ++ [PIPE] ++ [10, 20]

/-- C8 counterexample: a flat save whose declared pixel-data length is `0`
(height 0) and whose bytes end far before the screenshot offset is
accepted by `read_exact(…, 0)`, so the decode succeeds with an empty
buffer instead of failing with the EOF error. -/
theorem c8_counterexample :
    parse_header flatSaveTrunc0 0 = .ok
      { width := 2, height := 0, save_index := 0, pc_name := [], pc_karma := [],
        pc_level := 0, pc_location := [], playtime := [], unknown1 := 0,
        screenshot_offset := 1004, header_end_pos := 55, header_start_pos := 0 } ∧
    flatSaveTrunc0.length < 1004 + 2 * 0 * 3 ∧
    extract_image flatSaveTrunc0 = .ok (2, 0, []) ∧
    (Except.ok (2, 0, ([] : List Nat)) : Except DecodeErr (Nat × Nat × List Nat)) ≠
      .error .eof :=
  ⟨rfl, by decide, rfl, by simp⟩

/-- C8 (amended): for every flat-save input the header decoder accepts
whose declared pixel-data length `width*height*3` is positive, if the
bytes end at least one byte before `screenshot_offset + width*height*3`,
the decode fails with the EOF error and no image is produced. -/
theorem c8_truncated_eof (data : List Nat) (hdr : Header)
    (hp : parse_header data 0 = .ok hdr)
    (hwh : 1 ≤ hdr.width * hdr.height)
    (hlen : data.length < hdr.screenshot_offset + hdr.width * hdr.height * 3) :
    extract_image data = .error .eof := by
  have hcond : ¬ ((List.take (hdr.width * hdr.height * 3)
      (List.drop hdr.screenshot_offset data)).length = hdr.width * hdr.height * 3) := by
    simp only [List.length_take, List.length_drop]
    omega
  have hre : read_exact data hdr.screenshot_offset (hdr.width * hdr.height * 3) =
      .error .eof := by
    unfold read_exact
    simp only
    rw [if_neg hcond]
  unfold extract_image
  rw [hp]
  conv_lhs => whnf
  rw [hre]

/-- Witness for C8: the truncated 1×1 save fails with the EOF error. -/
theorem c8_truncated_eof_witness :
    (parse_header flatSaveTrunc1 0 = .ok
      { width := 1, height := 1, save_index := 0, pc_name := [], pc_karma := [],
        pc_level := 0, pc_location := [], playtime := [], unknown1 := 0,
        screenshot_offset := 55, header_end_pos := 55, header_start_pos := 0 } ∧
     1 ≤ (1 : Nat) * 1 ∧ flatSaveTrunc1.length < 55 + 1 * 1 * 3) ∧
    extract_image flatSaveTrunc1 = .error .eof :=
  ⟨⟨rfl, by decide, by decide⟩,
   c8_truncated_eof flatSaveTrunc1 _ rfl (by decide) (by decide)⟩

/-! ## C3 and C10: the legacy-layout width branch -/

/-- Reducing a bind of an `ok` value. -/
theorem except_ok_bind {ε α β : Type} (a : α) (f : α → Except ε β) :
    (Except.ok a >>= f) = f a := rfl

/-- A synthetic legacy-layout header: magic, header size 64, unused field,
divider, a bogus 32-bit value, a 60-byte skip block, a divider, the real
width, and the remaining divider-prefixed fields (all zero / empty). -/
def synLegacyHeader (bogus realW : Nat) : List Nat :=
  [70, 79, 51, 83, 65, 86, 69, 71, 65, 77, 69, 64, 0, 0, 0, 0, 0, 0, 0, 124, bogus % 256,
    bogus / 256 % 256, bogus / 65536 % 256, bogus / 16777216 % 256, 0, 0, 0, 0, 0, 0, 0, 0, 0,
    0, 0, 0, 0, 0, 0, 0, 0, 0, 0, 0, 0, 0, 0, 0, 0, 0, 0, 0, 0, 0, 0, 0, 0, 0, 0, 0, 0, 0, 0,
    0, 0, 0, 0, 0, 0, 0, 0, 0, 0, 0, 0, 0, 0, 0, 0, 0, 0, 0, 0, 0, 124, realW % 256,
    realW / 256 % 256, realW / 65536 % 256, realW / 16777216 % 256, 124, 0, 0, 0, 0, 124, 0, 0,
    0, 0, 124, 0, 0, 124, 124, 0, 0, 124, 124, 0, 0, 0, 0, 124, 0, 0, 124, 124, 0, 0, 124]

/-- Evaluating the header decoder on the synthetic legacy header: when the
first value exceeds 16384, the decoder skips 60 bytes, reads the divider
at offset 84, re-reads the 32-bit value at offset 85 as the width, and
parses the remaining fields. -/
theorem parse_header_synLegacy (bogus realW : Nat) (h16 : 16384 < bogus)
    (hb : bogus < 4294967296) (hw : realW < 4294967296) :
    parse_header (synLegacyHeader bogus realW) 0 = .ok
      { width := realW, height := 0, save_index := 0, pc_name := [], pc_karma := [],
        pc_level := 0, pc_location := [], playtime := [], unknown1 := 0,
        screenshot_offset := 68, header_end_pos := 120, header_start_pos := 0 } := by
  have hcond : 16384 < leU32 (encodeU32 bogus) := by
    simp only [encodeU32, leU32]
    omega
  have hleu : leU32 (encodeU32 realW) = realW := by
    simp only [encodeU32, leU32]
    omega
  have key : parse_header (synLegacyHeader bogus realW) 0 =
      (if 16384 < leU32 (encodeU32 bogus) then
        read_divider (synLegacyHeader bogus realW) 84 >>= fun pos =>
        read_u32_le (synLegacyHeader bogus realW) pos >>= fun wp =>
        parse_header_rest (synLegacyHeader bogus realW) 0 64 0 wp.1 wp.2
      else
        parse_header_rest (synLegacyHeader bogus realW) 0 64 0 (leU32 (encodeU32 bogus)) 24) :=
    rfl
  rw [key, if_pos hcond]
  rw [show read_divider (synLegacyHeader bogus realW) 84 = .ok 85 from rfl, except_ok_bind]
  rw [show read_u32_le (synLegacyHeader bogus realW) 85 =
        .ok (leU32 (encodeU32 realW), 89) from rfl, except_ok_bind]
  show parse_header_rest (synLegacyHeader bogus realW) 0 64 0 (leU32 (encodeU32 realW)) 89 = _
  rw [hleu]
  exact rfl

/-- C3: when the 32-bit value read after the first divider exceeds 16384,
the decoder skips exactly 60 bytes, reads another divider, and takes the
re-read 32-bit value as the width: on every synthetic legacy header with
a bogus first value `> 16384`, a 60-byte skip block, a divider, and a real
width, decoding recovers the real width unchanged. -/
theorem c3_legacy_width_recovered (bogus realW : Nat) (h16 : 16384 < bogus)
    (hb : bogus < 4294967296) (hw : realW < 4294967296) :
    Except.map Header.width (parse_header (synLegacyHeader bogus realW) 0) = .ok realW := by
  rw [parse_header_synLegacy bogus realW h16 hb hw]
  rfl

/-- Witness for C3 at `bogus = 20000`, `realW = 640`. -/
theorem c3_legacy_width_recovered_witness :
    (16384 < 20000 ∧ 20000 < 4294967296 ∧ 640 < 4294967296) ∧
    Except.map Header.width (parse_header (synLegacyHeader 20000 640) 0) = .ok 640 :=
  ⟨⟨by decide, by decide, by decide⟩,
   c3_legacy_width_recovered 20000 640 (by decide) (by decide) (by decide)⟩

/-- C10: the legacy branch is taken at most once — the value re-read after
the 60-byte skip and the second divider is accepted as the width
unconditionally, even when it also exceeds 16384; no further skip,
re-read, or error occurs. -/
theorem c10_legacy_branch_once (bogus realW : Nat) (h16 : 16384 < bogus)
    (_hw16 : 16384 < realW) (hb : bogus < 4294967296) (hw : realW < 4294967296) :
    Except.map Header.width (parse_header (synLegacyHeader bogus realW) 0) = .ok realW ∧
    ∀ e, parse_header (synLegacyHeader bogus realW) 0 ≠ .error e := by
  constructor
  · rw [parse_header_synLegacy bogus realW h16 hb hw]
    rfl
  · intro e hcontra
    rw [parse_header_synLegacy bogus realW h16 hb hw] at hcontra
    cases hcontra

/-- Witness for C10 at `bogus = 20000`, `realW = 30000` (also above the
threshold). -/
theorem c10_legacy_branch_once_witness :
    (16384 < 20000 ∧ 16384 < 30000 ∧ 20000 < 4294967296 ∧ 30000 < 4294967296) ∧
    (Except.map Header.width (parse_header (synLegacyHeader 20000 30000) 0) = .ok 30000 ∧
     ∀ e, parse_header (synLegacyHeader 20000 30000) 0 ≠ .error e) :=
  ⟨⟨by decide, by decide, by decide, by decide⟩,
   c10_legacy_branch_once 20000 30000 (by decide) (by decide) (by decide) (by decide)⟩

/-! ## C7 -/

/-- C7: every decoded container entry is flagged a directory exactly when
its size and start cluster are both 0; a directory entry produces zero
output bytes on extraction; an entry with size 0 but non-zero cluster is
not a directory. -/
theorem c7_directory_invariant (data : List Nat) (pos : Nat) (e : PirsEntry) (p : Nat)
    (h : read_entry data pos = .ok (some e, p)) :
    (e.is_dir = true ↔ (e.Size = 0 ∧ e.Cluster = 0)) ∧
    (∀ pkg, e.is_dir = true → extract_entry pkg e = []) ∧
    (e.Size = 0 → e.Cluster ≠ 0 → e.is_dir = false) := by
  unfold read_entry at h
  obtain ⟨a1, h1, h⟩ := except_bind_eq_ok h
  obtain ⟨fname, pos1⟩ := a1
  split at h
  rename_i fname2 pos1x heq
  injection heq with e1 e2
  subst e1
  subst e2
  split at h
  · exact absurd (congrArg Prod.fst (Except.ok.inj h)) (by simp)
  · obtain ⟨a2, h2, h⟩ := except_bind_eq_ok h
    obtain ⟨unknow, pos2⟩ := a2
    obtain ⟨a3, h3, h⟩ := except_bind_eq_ok h
    obtain ⟨blockLen, pos3⟩ := a3
    obtain ⟨a4, h4, h⟩ := except_bind_eq_ok h
    obtain ⟨rawc, pos4⟩ := a4
    obtain ⟨a5, h5, h⟩ := except_bind_eq_ok h
    obtain ⟨parent, pos5⟩ := a5
    obtain ⟨a6, h6, h⟩ := except_bind_eq_ok h
    obtain ⟨size, pos6⟩ := a6
    obtain ⟨a7, h7, h⟩ := except_bind_eq_ok h
    obtain ⟨dt1, pos7⟩ := a7
    obtain ⟨a8, h8, h⟩ := except_bind_eq_ok h
    obtain ⟨dt2, pos8⟩ := a8
    have he : some e = some
        { Filename := fname, Unknow := unknow, BlockLen := blockLen,
          Cluster := rawc >>> 8, Parent := parent, Size := size,
          DateTime1 := dos_datetime_from_u32 dt1, DateTime2 := dos_datetime_from_u32 dt2,
          is_dir := size == 0 && rawc >>> 8 == 0 } := by
      exact congrArg Prod.fst (Except.ok.inj h).symm
    rw [Option.some.injEq] at he
    subst he
    refine ⟨?_, ?_, ?_⟩
    · simp
    · intro pkg hd
      simp at hd
      unfold extract_entry
      rw [if_pos hd.1]
    · intro hs hc
      simp [hs, hc]

/-- Witness for C7 at a concrete 64-byte record with name `"A"` and all
other fields zero (a directory entry). -/
theorem c7_directory_invariant_witness :
    read_entry (65 :: List.replicate 63 0) 0 = .ok (some
      { Filename := [65], Unknow := 0, BlockLen := 0, Cluster := 0, Parent := 0, Size := 0,
        DateTime1 := (1980, 0, 0, 0, 0, 0), DateTime2 := (1980, 0, 0, 0, 0, 0),
        is_dir := true }, 64) ∧
    ((PirsEntry.is_dir
        { Filename := [65], Unknow := 0, BlockLen := 0, Cluster := 0, Parent := 0, Size := 0,
          DateTime1 := (1980, 0, 0, 0, 0, 0), DateTime2 := (1980, 0, 0, 0, 0, 0),
          is_dir := true } = true ↔
        (PirsEntry.Size
          { Filename := [65], Unknow := 0, BlockLen := 0, Cluster := 0, Parent := 0, Size := 0,
            DateTime1 := (1980, 0, 0, 0, 0, 0), DateTime2 := (1980, 0, 0, 0, 0, 0),
            is_dir := true } = 0 ∧
         PirsEntry.Cluster
          { Filename := [65], Unknow := 0, BlockLen := 0, Cluster := 0, Parent := 0, Size := 0,
            DateTime1 := (1980, 0, 0, 0, 0, 0), DateTime2 := (1980, 0, 0, 0, 0, 0),
            is_dir := true } = 0)) ∧
     (∀ pkg, PirsEntry.is_dir
        { Filename := [65], Unknow := 0, BlockLen := 0, Cluster := 0, Parent := 0, Size := 0,
          DateTime1 := (1980, 0, 0, 0, 0, 0), DateTime2 := (1980, 0, 0, 0, 0, 0),
          is_dir := true } = true →
        extract_entry pkg
          { Filename := [65], Unknow := 0, BlockLen := 0, Cluster := 0, Parent := 0, Size := 0,
            DateTime1 := (1980, 0, 0, 0, 0, 0), DateTime2 := (1980, 0, 0, 0, 0, 0),
            is_dir := true } = []) ∧
     (PirsEntry.Size
        { Filename := [65], Unknow := 0, BlockLen := 0, Cluster := 0, Parent := 0, Size := 0,
          DateTime1 := (1980, 0, 0, 0, 0, 0), DateTime2 := (1980, 0, 0, 0, 0, 0),
          is_dir := true } = 0 →
      PirsEntry.Cluster
        { Filename := [65], Unknow := 0, BlockLen := 0, Cluster := 0, Parent := 0, Size := 0,
          DateTime1 := (1980, 0, 0, 0, 0, 0), DateTime2 := (1980, 0, 0, 0, 0, 0),
          is_dir := true } ≠ 0 →
      PirsEntry.is_dir
        { Filename := [65], Unknow := 0, BlockLen := 0, Cluster := 0, Parent := 0, Size := 0,
          DateTime1 := (1980, 0, 0, 0, 0, 0), DateTime2 := (1980, 0, 0, 0, 0, 0),
          is_dir := true } = false)) :=
  ⟨rfl, c7_directory_invariant (65 :: List.replicate 63 0) 0 _ 64 rfl⟩

/-! ## Pointwise characterization of the strided row operations -/

theorem stride3_length : ∀ l : List Nat, (stride3 l).length = (l.length + 2) / 3
  | [] => rfl
  | [_] => by simp [stride3]
  | [_, _] => by simp [stride3]
  | _ :: _ :: _ :: rest => by
      simp only [stride3, List.length_cons]
      rw [stride3_length rest]
      omega

theorem stride3_getElem? : ∀ (l : List Nat) (j : Nat), (stride3 l)[j]? = l[3 * j]?
  | [], j => by simp [stride3]
  | [a], j => by
      cases j with
      | zero => simp [stride3]
      | succ j =>
          rw [show stride3 [a] = [a] from rfl]
          rw [List.getElem?_eq_none (by simp), List.getElem?_eq_none (by simp; omega)]
  | [a, b], j => by
      cases j with
      | zero => simp [stride3]
      | succ j =>
          rw [show stride3 [a, b] = [a] from rfl]
          rw [List.getElem?_eq_none (by simp), List.getElem?_eq_none (by simp; omega)]
  | a :: b :: c :: rest, j => by
      cases j with
      | zero => simp [stride3]
      | succ j =>
          rw [show stride3 (a :: b :: c :: rest) = a :: stride3 rest from rfl]
          rw [show 3 * (j + 1) = 3 * j + 2 + 1 from by omega]
          rw [List.getElem?_cons_succ, List.getElem?_cons_succ]
          rw [show 3 * j + 2 = 3 * j + 1 + 1 from by omega]
          rw [List.getElem?_cons_succ, List.getElem?_cons_succ]
          exact stride3_getElem? rest j

theorem writeStride3_getElem?_other :
    ∀ (vs out : List Nat) (start p : Nat), (∀ j, j < vs.length → p ≠ start + 3 * j) →
      (writeStride3 out start vs)[p]? = out[p]?
  | [], _, _, _, _ => rfl
  | v :: vs, out, start, p, hp => by
      rw [writeStride3]
      rw [writeStride3_getElem?_other vs (out.set start v) (start + 3) p
        (fun j hj => by
          have := hp (j + 1) (by simpa using Nat.succ_lt_succ hj)
          omega)]
      exact List.getElem?_set_ne (fun hc => hp 0 (by simp) (by omega)) 

theorem writeStride3_getElem?_hit :
    ∀ (vs out : List Nat) (start j : Nat), j < vs.length → start + 3 * j < out.length →
      (writeStride3 out start vs)[start + 3 * j]? = vs[j]?
  | [], _, _, j, hj, _ => absurd hj (by simp)
  | v :: vs, out, start, 0, _, hlt => by
      rw [writeStride3]
      rw [writeStride3_getElem?_other vs (out.set start v) (start + 3) (start + 3 * 0)
        (fun j hj => by omega)]
      simp only [Nat.mul_zero, Nat.add_zero]
      rw [List.getElem?_set_self (by simpa using hlt)]
      simp
  | v :: vs, out, start, j + 1, hj, hlt => by
      rw [writeStride3]
      have : start + 3 * (j + 1) = (start + 3) + 3 * j := by omega
      rw [this]
      rw [writeStride3_getElem?_hit vs (out.set start v) (start + 3) j
        (by simpa using Nat.lt_of_succ_lt_succ hj) (by simp; omega)]
      simp

theorem drop_take_congr {X Z : List Nat} (m t : Nat)
    (h : ∀ p, m ≤ p → p < m + t → X[p]? = Z[p]?) :
    (X.drop m).take t = (Z.drop m).take t := by
  apply List.ext_getElem?
  intro i
  rw [List.getElem?_take, List.getElem?_take]
  split
  · rw [List.getElem?_drop, List.getElem?_drop]
    rename_i hit
    exact h (m + i) (by omega) (by omega)
  · rfl

/-- Writing a channel row back unchanged is the identity. -/
theorem writeStride3_writeback (out : List Nat) (s t : Nat) :
    writeStride3 out s (stride3 ((out.drop s).take t)) = out := by
  apply List.ext_getElem?
  intro p
  by_cases hp : ∃ j, j < (stride3 ((out.drop s).take t)).length ∧ p = s + 3 * j
  · obtain ⟨j, hj, rfl⟩ := hp
    have hjt : 3 * j < t ∧ 3 * j < out.length - s := by
      rw [stride3_length] at hj
      simp only [List.length_take, List.length_drop] at hj
      omega
    by_cases hlt : s + 3 * j < out.length
    · rw [writeStride3_getElem?_hit _ out s j hj hlt]
      rw [stride3_getElem?, List.getElem?_take, if_pos hjt.1, List.getElem?_drop]
    · rw [List.getElem?_eq_none (by rw [writeStride3_length]; omega),
          List.getElem?_eq_none (by omega)]
  · push_neg at hp
    exact writeStride3_getElem?_other _ out s _ hp

/-- Reading back the channel row just written yields the written values. -/
theorem stride3_readback (out vs : List Nat) (w ch row0 : Nat) (hch : ch ≤ 2) (hw : 1 ≤ w)
    (hlen : vs.length = w) (hout : row0 + w * 3 ≤ out.length) :
    stride3 (((writeStride3 out (row0 + ch) vs).drop (row0 + ch)).take (w * 3 - ch)) = vs := by
  apply List.ext_getElem?
  intro j
  rw [stride3_getElem?, List.getElem?_take]
  by_cases hj : j < w
  · rw [if_pos (by omega), List.getElem?_drop]
    have : row0 + ch + 3 * j = (row0 + ch) + 3 * j := by omega
    rw [this]
    exact writeStride3_getElem?_hit vs out (row0 + ch) j (by omega) (by omega)
  · rw [if_neg (by omega), List.getElem?_eq_none (by omega)]

/-- The channel row of a full-width buffer has length `w`. -/
theorem chRow_length (out : List Nat) (w ch row0 : Nat) (hch : ch ≤ 2) (hw : 1 ≤ w)
    (hout : row0 + w * 3 ≤ out.length) :
    (stride3 ((out.drop (row0 + ch)).take (w * 3 - ch))).length = w := by
  rw [stride3_length]
  simp only [List.length_take, List.length_drop]
  omega

/-- The row loop never touches positions below its first row. -/
theorem rotRows_low (rot : List Nat → List Nat) (w ch : Nat) :
    ∀ (n z : Nat) (out : List Nat) (p : Nat), p < z * (w * 3) →
      (rotRows rot w ch z n out)[p]? = out[p]? := by
  intro n
  induction n with
  | zero => intro z out p _; rfl
  | succ n ih =>
    intro z out p hp
    rw [rotRows]
    have hz : z * (w * 3) + w * 3 = (z + 1) * (w * 3) := by ring
    rw [ih (z + 1) _ p (by omega)]
    exact writeStride3_getElem?_other _ out (z * (w * 3) + ch) p (fun j hj => by omega)

/-- Stride-3 writes at disjoint ranges commute. -/
theorem writeStride3_comm (out v1 v2 : List Nat) (s1 s2 : Nat)
    (hd : s1 + 3 * v1.length ≤ s2 + 2) :
    writeStride3 (writeStride3 out s2 v2) s1 v1 = writeStride3 (writeStride3 out s1 v1) s2 v2 := by
  apply List.ext_getElem?
  intro p
  by_cases h1 : ∃ j, j < v1.length ∧ p = s1 + 3 * j
  · obtain ⟨j, hj, rfl⟩ := h1
    by_cases hlt : s1 + 3 * j < out.length
    · rw [writeStride3_getElem?_hit v1 _ s1 j hj (by rw [writeStride3_length]; exact hlt)]
      rw [writeStride3_getElem?_other v2 _ s2 _ (fun j2 hj2 => by omega)]
      rw [writeStride3_getElem?_hit v1 out s1 j hj hlt]
    · rw [List.getElem?_eq_none (by rw [writeStride3_length, writeStride3_length]; omega),
          List.getElem?_eq_none (by rw [writeStride3_length, writeStride3_length]; omega)]
  · push_neg at h1
    rw [writeStride3_getElem?_other v1 _ s1 p h1]
    by_cases h2 : ∃ j, j < v2.length ∧ p = s2 + 3 * j
    · obtain ⟨j, hj, rfl⟩ := h2
      by_cases hlt : s2 + 3 * j < out.length
      · rw [writeStride3_getElem?_hit v2 out s2 j hj hlt,
            writeStride3_getElem?_hit v2 _ s2 j hj (by rw [writeStride3_length]; exact hlt)]
      · rw [List.getElem?_eq_none (by rw [writeStride3_length]; omega),
            List.getElem?_eq_none (by rw [writeStride3_length, writeStride3_length]; omega)]
    · push_neg at h2
      rw [writeStride3_getElem?_other v2 out s2 p h2,
          writeStride3_getElem?_other v2 _ s2 p h2,
          writeStride3_getElem?_other v1 out s1 p h1]

/-- A second write to the same stride positions overwrites the first. -/
theorem writeStride3_overwrite (out v1 v2 : List Nat) (s : Nat) (hlen : v2.length = v1.length) :
    writeStride3 (writeStride3 out s v1) s v2 = writeStride3 out s v2 := by
  apply List.ext_getElem?
  intro p
  by_cases h1 : ∃ j, j < v2.length ∧ p = s + 3 * j
  · obtain ⟨j, hj, rfl⟩ := h1
    by_cases hlt : s + 3 * j < out.length
    · rw [writeStride3_getElem?_hit v2 _ s j hj (by rw [writeStride3_length]; exact hlt),
          writeStride3_getElem?_hit v2 out s j hj hlt]
    · rw [List.getElem?_eq_none (by rw [writeStride3_length, writeStride3_length]; omega),
          List.getElem?_eq_none (by rw [writeStride3_length]; omega)]
  · push_neg at h1
    rw [writeStride3_getElem?_other v2 _ s p h1,
        writeStride3_getElem?_other v2 out s p h1,
        writeStride3_getElem?_other v1 out s p (fun j hj => h1 j (by omega))]

/-- A stride-3 write strictly below row `z` commutes with the row loop
from row `z` on. -/
theorem writeStride3_rotRows_comm (rot : List Nat → List Nat) (w ch : Nat) (hch : ch ≤ 2) :
    ∀ (n z : Nat) (out v : List Nat) (s : Nat), s + 3 * v.length ≤ z * (w * 3) + 2 →
      writeStride3 (rotRows rot w ch z n out) s v = rotRows rot w ch z n (writeStride3 out s v) := by
  intro n
  induction n with
  | zero => intro z out v s _; rfl
  | succ n ih =>
    intro z out v s hs
    simp only [rotRows]
    have hz : z * (w * 3) + w * 3 = (z + 1) * (w * 3) := by ring
    rw [ih (z + 1) _ v s (by omega)]
    have hR : stride3 (((writeStride3 out s v).drop (z * (w * 3) + ch)).take (w * 3 - ch)) =
        stride3 ((out.drop (z * (w * 3) + ch)).take (w * 3 - ch)) := by
      congr 1
      apply drop_take_congr
      intro p hplo hp
      exact writeStride3_getElem?_other v out s p (fun j hj => by omega)
    rw [hR]
    rw [writeStride3_comm out v
      (rot (stride3 ((out.drop (z * (w * 3) + ch)).take (w * 3 - ch)))) s
      (z * (w * 3) + ch) (by omega)]

/-- Two passes of the row loop with the same channel compose row-wise. -/
theorem rotRows_comp (f g : List Nat → List Nat) (w ch : Nat) (hch : ch ≤ 2) (hw : 1 ≤ w)
    (hf : ∀ l, (f l).length = l.length) (hg : ∀ l, (g l).length = l.length) :
    ∀ (n z : Nat) (out : List Nat), (z + n) * (w * 3) ≤ out.length →
      rotRows g w ch z n (rotRows f w ch z n out) =
        rotRows (fun l => g (f l)) w ch z n out := by
  intro n
  induction n with
  | zero => intro z out _; rfl
  | succ n ih =>
    intro z out hbound
    have hz : z * (w * 3) + w * 3 = (z + 1) * (w * 3) := by ring
    have hz2 : (z + 1 + n) * (w * 3) = (z + (n + 1)) * (w * 3) := by ring
    have hrow : z * (w * 3) + w * 3 ≤ out.length := by
      calc z * (w * 3) + w * 3 = (z + 1) * (w * 3) := hz
        _ ≤ (z + (n + 1)) * (w * 3) := Nat.mul_le_mul_right _ (by omega)
        _ ≤ out.length := hbound
    have hRlen : (stride3 ((out.drop (z * (w * 3) + ch)).take (w * 3 - ch))).length = w :=
      chRow_length out w ch (z * (w * 3)) hch hw hrow
    simp only [rotRows]
    -- reduce the channel row read by the second pass
    have hX : ∀ Z : List Nat, Z.length = out.length →
        stride3 (((rotRows f w ch (z + 1) n Z).drop (z * (w * 3) + ch)).take (w * 3 - ch)) =
        stride3 ((Z.drop (z * (w * 3) + ch)).take (w * 3 - ch)) := by
      intro Z hZ
      congr 1
      apply drop_take_congr
      intro p hplo hp
      exact rotRows_low f w ch n (z + 1) Z p (by omega)
    rw [hX (writeStride3 out (z * (w * 3) + ch)
          (f (stride3 ((out.drop (z * (w * 3) + ch)).take (w * 3 - ch)))))
        (by rw [writeStride3_length])]
    rw [stride3_readback out _ w ch (z * (w * 3)) hch hw (by rw [hf, hRlen]) hrow]
    rw [writeStride3_rotRows_comm f w ch hch n (z + 1) _ _ _
      (by rw [hg, hf, hRlen]; omega)]
    rw [writeStride3_overwrite out _ _ _ (by rw [hg])]
    rw [ih (z + 1) _ (by rw [writeStride3_length]; omega)]

/-- The row loop only depends on its per-row function's behaviour on
full-width rows. -/
theorem rotRows_congr (rot1 rot2 : List Nat → List Nat) (w ch : Nat) (hch : ch ≤ 2) (hw : 1 ≤ w)
    (hr : ∀ l, l.length = w → rot1 l = rot2 l) :
    ∀ (n z : Nat) (out : List Nat), (z + n) * (w * 3) ≤ out.length →
      rotRows rot1 w ch z n out = rotRows rot2 w ch z n out := by
  intro n
  induction n with
  | zero => intro z out _; rfl
  | succ n ih =>
    intro z out hbound
    have hz : z * (w * 3) + w * 3 = (z + 1) * (w * 3) := by ring
    have hz2 : (z + 1 + n) * (w * 3) = (z + (n + 1)) * (w * 3) := by ring
    have hrow : z * (w * 3) + w * 3 ≤ out.length := by
      calc z * (w * 3) + w * 3 = (z + 1) * (w * 3) := hz
        _ ≤ (z + (n + 1)) * (w * 3) := Nat.mul_le_mul_right _ (by omega)
        _ ≤ out.length := hbound
    simp only [rotRows]
    rw [hr _ (chRow_length out w ch (z * (w * 3)) hch hw hrow)]
    exact ih (z + 1) _ (by rw [writeStride3_length]; omega)

/-- The row loop with the identity per-row function is the identity. -/
theorem rotRows_id (w ch : Nat) :
    ∀ (n z : Nat) (out : List Nat), rotRows (fun l => l) w ch z n out = out := by
  intro n
  induction n with
  | zero => intro z out; rfl
  | succ n ih =>
    intro z out
    simp only [rotRows]
    rw [writeStride3_writeback]
    exact ih (z + 1) out

/-- `toNat` of a nonnegative-dividend Python-style modulus. -/
theorem emod_toNat_pos (k w : Nat) : (((k : Int)) % (w : Int)).toNat = k % w := by
  omega

/-- The reduced shifts of two opposite shift amounts are either both zero
or sum to the width. -/
theorem shift_toNat_pair (sp sq : Int) (w : Nat) (hw : 1 ≤ w)
    (hsum : (sp + sq) % (w : Int) = 0) :
    ((sp % (w : Int)).toNat = 0 ∧ (sq % (w : Int)).toNat = 0) ∨
    ((sp % (w : Int)).toNat + (sq % (w : Int)).toNat = w ∧
      0 < (sp % (w : Int)).toNat ∧ 0 < (sq % (w : Int)).toNat) := by
  have hw0 : (0 : Int) < (w : Int) := by exact_mod_cast hw
  have ha0 : 0 ≤ sp % (w : Int) := Int.emod_nonneg sp (by omega)
  have ha1 : sp % (w : Int) < w := Int.emod_lt_of_pos sp hw0
  have hb0 : 0 ≤ sq % (w : Int) := Int.emod_nonneg sq (by omega)
  have hb1 : sq % (w : Int) < w := Int.emod_lt_of_pos sq hw0
  have hadd : (sp % (w : Int) + sq % (w : Int)) % (w : Int) = 0 := by
    rw [← Int.add_emod]
    exact hsum
  have hcases : sp % (w : Int) + sq % (w : Int) = 0 ∨
      sp % (w : Int) + sq % (w : Int) = w := by
    by_cases hlt : sp % (w : Int) + sq % (w : Int) < w
    · left
      rw [Int.emod_eq_of_lt (by omega) (by omega)] at hadd
      exact hadd
    · right
      have hsub : (sp % (w : Int) + sq % (w : Int) - w) % (w : Int) = 0 := by
        rw [Int.emod_sub_cancel]
        exact hadd
      rw [Int.emod_eq_of_lt (by omega) (by omega)] at hsub
      omega
  rcases hcases with h | h
  · left
    omega
  · right
    omega

/-- Rotating a row right by `s1` and then right by `s2` with
`s1 + s2 = length` is the identity. -/
theorem natRot_cancel (l : List Nat) (s1 s2 : Nat) (hs : s1 + s2 = l.length) :
    ((l.drop (l.length - s1) ++ l.take (l.length - s1)).drop
        ((l.drop (l.length - s1) ++ l.take (l.length - s1)).length - s2) ++
      (l.drop (l.length - s1) ++ l.take (l.length - s1)).take
        ((l.drop (l.length - s1) ++ l.take (l.length - s1)).length - s2)) = l := by
  have hls : l.length - s1 = s2 := by omega
  rw [hls]
  have hxlen : (l.drop s2 ++ l.take s2).length - s2 = (l.drop s2).length := by
    simp only [List.length_append, List.length_take, List.length_drop]
    omega
  rw [hxlen, List.drop_left, List.take_left]
  exact List.take_append_drop s2 l

/-! ## Claim-side definitions for the pixel transform (C4/C5) -/

/-- Left-rotation of a row by `k` positions, `k` first reduced modulo the
row length (the spec's description of the per-scanline rotation). -/
def rotl (l : List Nat) (k : Nat) : List Nat :=
  l.drop (k % l.length) ++ l.take (k % l.length)

/-- Claim-side per-channel scanline rotation: left-rotate each scanline's
stride-3 channel sub-sequence by `k`. -/
def specRotateChannel (w h ch k : Nat) (buf : List Nat) : List Nat :=
  rotRows (fun l => rotl l k) w ch 0 h buf

theorem specRotateChannel_length (w h ch k : Nat) (buf : List Nat) :
    (specRotateChannel w h ch k buf).length = buf.length := by
  unfold specRotateChannel
  rw [rotRows_length]

/-- Claim-side inverse of the channel permutation: output order `(R,G,B)`
back to stored order `(B,R,G)`. -/
def unreorder_channels : List Nat → List Nat
  | y0 :: y1 :: y2 :: rest => y1 :: y2 :: y0 :: unreorder_channels rest
  | l => l

theorem unreorder_reorder : ∀ l : List Nat, unreorder_channels (reorder_channels l) = l
  | [] => rfl
  | [_] => rfl
  | [_, _] => rfl
  | x0 :: x1 :: x2 :: rest => by
      simp only [reorder_channels, unreorder_channels]
      rw [unreorder_reorder rest]

/-- `shift_channel` with a shift amount congruent to `-k` modulo the width
is exactly the claim-side left-rotation by `k` of each scanline's channel
sub-sequence. -/
theorem shift_channel_eq_specRotate (buf : List Nat) (w h k ch : Nat) (c : String)
    (hc : (if c = "r" then (0 : Nat) else if c = "g" then 1 else 2) = ch) (hw : 1 ≤ w)
    (hlen : buf.length = w * h * 3) (sp : Int) (hsp : (sp + (k : Int)) % (w : Int) = 0) :
    shift_channel buf w h c sp = specRotateChannel w h ch k buf := by
  have hch : ch ≤ 2 := by
    rw [← hc]
    split_ifs <;> omega
  have hbound : (0 + h) * (w * 3) ≤ buf.length := by
    have : (0 + h) * (w * 3) = w * h * 3 := by ring
    omega
  unfold shift_channel specRotateChannel
  simp only [hc]
  rcases shift_toNat_pair sp (k : Int) w hw hsp with ⟨h1, h2⟩ | ⟨hsum2, h1, h2⟩
  · rw [emod_toNat_pos] at h2
    rw [if_pos h1]
    rw [rotRows_congr (fun l => rotl l k) (fun l => l) w ch hch hw
      (fun l hl => by
        show rotl l k = l
        unfold rotl
        rw [hl, h2]
        simp) h 0 buf hbound]
    rw [rotRows_id]
  · rw [emod_toNat_pos] at hsum2 h2
    rw [if_neg (show ¬ ((sp % (w : Int)).toNat = 0) from by omega)]
    exact rotRows_congr _ _ w ch hch hw
      (fun l hl => by
        show l.drop (l.length - (sp % (w : Int)).toNat) ++
          l.take (l.length - (sp % (w : Int)).toNat) = rotl l k
        unfold rotl
        rw [hl]
        rw [show w - (sp % (w : Int)).toNat = k % w from by omega]) h 0 buf hbound

/-- `shift_channel` with opposite shift amounts (mod the width) cancels. -/
theorem shift_channel_cancel (buf : List Nat) (w h : Nat) (c : String) (sp sq : Int)
    (hw : 1 ≤ w) (hlen : buf.length = w * h * 3) (hsum : (sp + sq) % (w : Int) = 0) :
    shift_channel (shift_channel buf w h c sp) w h c sq = buf := by
  have hch : (if c = "r" then (0 : Nat) else if c = "g" then 1 else 2) ≤ 2 := by
    split_ifs <;> omega
  have hbound : (0 + h) * (w * 3) ≤ buf.length := by
    have : (0 + h) * (w * 3) = w * h * 3 := by ring
    omega
  unfold shift_channel
  simp only
  rcases shift_toNat_pair sp sq w hw hsum with ⟨h1, h2⟩ | ⟨hsum2, h1, h2⟩
  · rw [if_pos h1, if_pos h2]
  · rw [if_neg (show ¬ ((sp % (w : Int)).toNat = 0) from by omega),
        if_neg (show ¬ ((sq % (w : Int)).toNat = 0) from by omega)]
    rw [rotRows_comp _ _ w _ hch hw
      (fun l => by simp only [List.length_append, List.length_take, List.length_drop]; omega)
      (fun l => by simp only [List.length_append, List.length_take, List.length_drop]; omega)
      h 0 buf hbound]
    rw [rotRows_congr _ (fun l => l) w _ hch hw
      (fun l hl => by
        show ((l.drop (l.length - (sp % (w : Int)).toNat) ++
            l.take (l.length - (sp % (w : Int)).toNat)).drop
              ((l.drop (l.length - (sp % (w : Int)).toNat) ++
                l.take (l.length - (sp % (w : Int)).toNat)).length - (sq % (w : Int)).toNat)) ++
          ((l.drop (l.length - (sp % (w : Int)).toNat) ++
            l.take (l.length - (sp % (w : Int)).toNat)).take
              ((l.drop (l.length - (sp % (w : Int)).toNat) ++
                l.take (l.length - (sp % (w : Int)).toNat)).length - (sq % (w : Int)).toNat)) = l
        exact natRot_cancel l ((sp % (w : Int)).toNat) ((sq % (w : Int)).toNat) (by omega))
      h 0 buf hbound]
    rw [rotRows_id]

theorem cons3_getElem? (a b c : Nat) (R : List Nat) (m : Nat) :
    (a :: b :: c :: R)[m + 3]? = R[m]? := by
  rw [show m + 3 = m + 2 + 1 from rfl, List.getElem?_cons_succ,
      show m + 2 = m + 1 + 1 from rfl, List.getElem?_cons_succ, List.getElem?_cons_succ]

/-- Pointwise characterization of the channel reorder: for every full
3-byte pixel, `out[0] = in[2]`, `out[1] = in[0]`, `out[2] = in[1]`. -/
theorem reorder_channels_getElem? : ∀ (l : List Nat) (i : Nat), 3 * i + 2 < l.length →
    (reorder_channels l)[3 * i]? = l[3 * i + 2]? ∧
    (reorder_channels l)[3 * i + 1]? = l[3 * i]? ∧
    (reorder_channels l)[3 * i + 2]? = l[3 * i + 1]?
  | [], i, h => by simp at h
  | [a], i, h => by simp at h
  | [a, b], i, h => by simp at h
  | x0 :: x1 :: x2 :: rest, 0, h => by
      simp [reorder_channels]
  | x0 :: x1 :: x2 :: rest, i + 1, h => by
      have ih := reorder_channels_getElem? rest i (by
        simp only [List.length_cons] at h
        omega)
      rw [show reorder_channels (x0 :: x1 :: x2 :: rest) =
        x2 :: x0 :: x1 :: reorder_channels rest from rfl]
      refine ⟨?_, ?_, ?_⟩
      · rw [show 3 * (i + 1) = 3 * i + 3 from by omega, cons3_getElem?,
            show 3 * i + 3 + 2 = 3 * i + 2 + 3 from by omega, cons3_getElem?]
        exact ih.1
      · rw [show 3 * (i + 1) = 3 * i + 3 from by omega,
            show 3 * i + 3 + 1 = 3 * i + 1 + 3 from by omega, cons3_getElem?, cons3_getElem?]
        exact ih.2.1
      · rw [show 3 * (i + 1) = 3 * i + 3 from by omega,
            show 3 * i + 3 + 2 = 3 * i + 2 + 3 from by omega,
            show 3 * i + 3 + 1 = 3 * i + 1 + 3 from by omega, cons3_getElem?, cons3_getElem?]
        exact ih.2.2

/-! ## C4 -/

/-- C4: the pixel transform is (1) the per-pixel channel reorder taking
stored `(B,R,G)` to output `(R,G,B)` — `out[0] = in[2]`, `out[1] = in[0]`,
`out[2] = in[1]` — followed by (2) a per-scanline left-rotation of the R
channel by 3 and of the G and B channels by 4 positions, each acting on
the channel's stride-3 sub-sequence of length `width` within the row. -/
theorem c4_pixel_transform (w h : Nat) (buf : List Nat) (hw : 1 ≤ w)
    (hlen : buf.length = w * h * 3) :
    (∀ i, 3 * i + 2 < buf.length →
      (reorder_channels buf)[3 * i]? = buf[3 * i + 2]? ∧
      (reorder_channels buf)[3 * i + 1]? = buf[3 * i]? ∧
      (reorder_channels buf)[3 * i + 2]? = buf[3 * i + 1]?) ∧
    pixel_pipeline w h buf =
      specRotateChannel w h 2 4 (specRotateChannel w h 1 4 (specRotateChannel w h 0 3
        (reorder_channels buf))) := by
  constructor
  · exact fun i hi => reorder_channels_getElem? buf i hi
  · unfold pixel_pipeline
    simp only
    rw [shift_channel_eq_specRotate (reorder_channels buf) w h 3 0 "r" rfl hw
      (by rw [reorder_channels_length]; exact hlen) (-3) (by norm_num)]
    rw [shift_channel_eq_specRotate _ w h 4 1 "g" rfl hw
      (by rw [specRotateChannel_length, reorder_channels_length]; exact hlen) (-4) (by norm_num)]
    rw [shift_channel_eq_specRotate _ w h 4 2 "b" rfl hw
      (by rw [specRotateChannel_length, specRotateChannel_length, reorder_channels_length]
          exact hlen) (-4) (by norm_num)]

/-- Witness for C4 at a 2×1 buffer. -/
theorem c4_pixel_transform_witness :
    (1 ≤ 2 ∧ ([1, 2, 3, 4, 5, 6] : List Nat).length = 2 * 1 * 3) ∧
    ((∀ i, 3 * i + 2 < ([1, 2, 3, 4, 5, 6] : List Nat).length →
      (reorder_channels [1, 2, 3, 4, 5, 6])[3 * i]? = ([1, 2, 3, 4, 5, 6] : List Nat)[3 * i + 2]? ∧
      (reorder_channels [1, 2, 3, 4, 5, 6])[3 * i + 1]? = ([1, 2, 3, 4, 5, 6] : List Nat)[3 * i]? ∧
      (reorder_channels [1, 2, 3, 4, 5, 6])[3 * i + 2]? =
        ([1, 2, 3, 4, 5, 6] : List Nat)[3 * i + 1]?) ∧
     pixel_pipeline 2 1 [1, 2, 3, 4, 5, 6] =
       specRotateChannel 2 1 2 4 (specRotateChannel 2 1 1 4 (specRotateChannel 2 1 0 3
         (reorder_channels [1, 2, 3, 4, 5, 6])))) :=
  ⟨⟨by decide, by decide⟩, c4_pixel_transform 2 1 [1, 2, 3, 4, 5, 6] (by decide) (by decide)⟩

/-! ## C5 -/

/-- C5: applying the inverse channel permutation and the inverse rotations
(right-rotation by the same amounts, i.e. `shift_channel` with `+3` for R
and `+4` for G and B) to the output of the pixel transform reproduces the
original scrambled buffer byte-for-byte, for any buffer of length
`width*height*3` with `width ≥ 1`. -/
theorem c5_round_trip (w h : Nat) (buf : List Nat) (hw : 1 ≤ w)
    (hlen : buf.length = w * h * 3) :
    unreorder_channels
      (shift_channel (shift_channel (shift_channel (pixel_pipeline w h buf) w h "b" 4)
        w h "g" 4) w h "r" 3) = buf := by
  unfold pixel_pipeline
  simp only
  rw [shift_channel_cancel (shift_channel (shift_channel (reorder_channels buf) w h "r" (-3))
        w h "g" (-4)) w h "b" (-4) 4 hw
      (by rw [shift_channel_length, shift_channel_length, reorder_channels_length]; exact hlen)
      (by norm_num)]
  rw [shift_channel_cancel (shift_channel (reorder_channels buf) w h "r" (-3)) w h "g" (-4) 4 hw
      (by rw [shift_channel_length, reorder_channels_length]; exact hlen) (by norm_num)]
  rw [shift_channel_cancel (reorder_channels buf) w h "r" (-3) 3 hw
      (by rw [reorder_channels_length]; exact hlen) (by norm_num)]
  exact unreorder_reorder buf

/-- Witness for C5 at a 2×1 buffer. -/
theorem c5_round_trip_witness :
    (1 ≤ 2 ∧ ([1, 2, 3, 4, 5, 6] : List Nat).length = 2 * 1 * 3) ∧
    unreorder_channels
      (shift_channel (shift_channel (shift_channel (pixel_pipeline 2 1 [1, 2, 3, 4, 5, 6])
        2 1 "b" 4) 2 1 "g" 4) 2 1 "r" 3) = [1, 2, 3, 4, 5, 6] :=
  ⟨⟨by decide, by decide⟩, c5_round_trip 2 1 [1, 2, 3, 4, 5, 6] (by decide) (by decide)⟩
